import Mathlib

/-!
Verification of the token/session authentication subsystem of whendy2025:
the JWT-style compact token codec (src/unnamed/part_010), the cookie codec
and in-memory session store (src/backend/Memory.ts) and the session manager
(src/backend/Manager.ts).

JavaScript strings are modelled as lists of UTF-16 code units: JsStr = List Nat.
Byte buffers are lists of Nat below 256.  External Node primitives that the
source delegates to (HMAC-SHA256, JSON.stringify/JSON.parse) are taken as
explicit collaborator parameters, exactly the collaborator interfaces the
repository consumes; base64url encoding/decoding (Buffer's "base64url"
codec) is modelled concretely below.
-/

namespace Whendy

/-- JavaScript string: list of UTF-16 code units. -/
abbrev JsStr := List Nat

/-- Code of the character "." -/
def dotC : Nat := 46
/-- Code of the character ";" -/
def semiC : Nat := 59
/-- Code of the character "=" -/
def eqC : Nat := 61
/-- Code of the character "%" -/
def pctC : Nat := 37

/-- Model of JavaScript String.prototype.split with a one-character
separator: splits the list at every occurrence of the separator, keeping
empty segments (so the result is always non-empty). -/
def jsSplit (sep : Nat) : List Nat → List (List Nat)
  | [] => [[]]
  | c :: rest =>
    match jsSplit sep rest with
    | [] => [[]]
    | cur :: done => if c = sep then [] :: cur :: done else (c :: cur) :: done

/-- Model of Array.prototype.join with a one-character separator. -/
def jsJoin (sep : Nat) : List (List Nat) → List Nat
  | [] => []
  | [x] => x
  | x :: xs => x ++ sep :: jsJoin sep xs

/-- ASCII whitespace recognised by the model of String.prototype.trim
(the source only ever trims ASCII cookie text). -/
def isWs (c : Nat) : Bool := c = 32 || c = 9 || c = 10 || c = 13 || c = 12 || c = 11

/-- Model of String.prototype.trim. -/
def jsTrim (l : List Nat) : List Nat :=
  ((l.dropWhile isWs).reverse.dropWhile isWs).reverse

/-- Hexadecimal digit value, as used by decodeURIComponent. -/
def hexVal (c : Nat) : Option Nat :=
  if 48 ≤ c ∧ c ≤ 57 then some (c - 48)
  else if 65 ≤ c ∧ c ≤ 70 then some (c - 55)
  else if 97 ≤ c ∧ c ≤ 102 then some (c - 87)
  else none

/-- Model of decodeURIComponent restricted to single-byte escapes: each
"%XY" hex escape decodes to the code X*16+Y, any other character passes
through, and a malformed escape is an error (JS URIError).  Multi-byte
UTF-8 escape sequences are not reassembled; every value the claims touch
is ASCII. -/
def pctDecode : List Nat → Option (List Nat)
  | [] => some []
  | c :: rest =>
    if c = 37 then
      match rest with
      | h1 :: h2 :: rest2 =>
        match hexVal h1, hexVal h2, pctDecode rest2 with
        | some a, some b, some r => some ((a * 16 + b) :: r)
        | _, _, _ => none
      | _ => none
    else
      match pctDecode rest with
      | some r => some (c :: r)
      | none => none

/-! ## base64url (Node Buffer's "base64url" codec) -/

/-- The base64url character for a sextet value (total function; every
argument below 64 hits the published alphabet). -/
def sextToCode (v : Nat) : Nat :=
  if v < 26 then 65 + v
  else if v < 52 then 97 + (v - 26)
  else if v < 62 then 48 + (v - 52)
  else if v = 62 then 45
  else 95

/-- Whether a character code is in the base64url alphabet. -/
def isB64Code (c : Nat) : Bool :=
  (65 ≤ c && c ≤ 90) || (97 ≤ c && c ≤ 122) || (48 ≤ c && c ≤ 57) || c = 45 || c = 95

/-- Sextet value of a base64url character code (0 on non-alphabet input,
which the decoder filters out beforehand). -/
def codeToSext (c : Nat) : Nat :=
  if 65 ≤ c ∧ c ≤ 90 then c - 65
  else if 97 ≤ c ∧ c ≤ 122 then c - 71
  else if 48 ≤ c ∧ c ≤ 57 then c + 4
  else if c = 45 then 62
  else if c = 95 then 63
  else 0

/-- base64url encoding of a byte list, unpadded, as produced by
Buffer.prototype.toString with encoding "base64url". -/
def b64urlEncode : List Nat → List Nat
  | b0 :: b1 :: b2 :: rest =>
    sextToCode (b0 / 4) :: sextToCode ((b0 % 4) * 16 + b1 / 16) ::
    sextToCode ((b1 % 16) * 4 + b2 / 64) :: sextToCode (b2 % 64) :: b64urlEncode rest
  | [b0, b1] => [sextToCode (b0 / 4), sextToCode ((b0 % 4) * 16 + b1 / 16), sextToCode ((b1 % 16) * 4)]
  | [b0] => [sextToCode (b0 / 4), sextToCode ((b0 % 4) * 16)]
  | [] => []

/-- Byte reassembly from a list of sextet values: groups of four sextets
give three bytes; a trailing group of three gives two bytes, of two gives
one byte, and a lone trailing sextet contributes nothing.  Trailing bits
beyond the last whole byte are discarded, as Buffer.from does. -/
def decodeSex : List Nat → List Nat
  | s0 :: s1 :: s2 :: s3 :: rest =>
    (s0 * 4 + s1 / 16) :: ((s1 % 16) * 16 + s2 / 4) :: ((s2 % 4) * 64 + s3) :: decodeSex rest
  | [s0, s1, s2] => [s0 * 4 + s1 / 16, (s1 % 16) * 16 + s2 / 4]
  | [s0, s1] => [s0 * 4 + s1 / 16]
  | [_] => []
  | [] => []

/-- Sextet values of the alphabet characters of a string; Buffer.from with
encoding "base64url" ignores characters outside the alphabet. -/
def sextetsOf (l : List Nat) : List Nat := (l.filter isB64Code).map codeToSext

/-- base64url decoding of a string to bytes, as Buffer.from(s, "base64url")
computes it. -/
def b64urlDecode (l : List Nat) : List Nat := decodeSex (sextetsOf l)

/-! ## JSON values -/

/-- JSON values.  Numbers are modelled as integers: every numeric claim in
this subsystem (iat, exp, timestamps) is integral. -/
inductive Json where
  | num : Int → Json
  | str : JsStr → Json
  | bool : Bool → Json
  | null : Json
  | arr : List Json → Json
  | obj : List (JsStr × Json) → Json
deriving Repr

/-- A JavaScript object payload: association list of key/value pairs in
insertion order, keys unique. -/
abbrev JsObj := List (JsStr × Json)

/-- First-match lookup in an object's fields (keys of a JS object are
unique, so first match is the match). -/
def objGet : JsObj → JsStr → Option Json
  | [], _ => none
  | (k, v) :: rest, key => if k = key then some v else objGet rest key

/-- Property read on a JSON value: field lookup on objects, undefined
(none) elsewhere. -/
def getKey (j : Json) (key : JsStr) : Option Json :=
  match j with
  | Json.obj fields => objGet fields key
  | _ => none

/-- JS property assignment on an object literal spread: if the key exists
its value is replaced in place (keeping its position), otherwise the pair
is appended, exactly the semantics of spreading then assigning. -/
def setKey : JsObj → JsStr → Json → JsObj
  | [], key, v => [(key, v)]
  | (k, v') :: rest, key, v =>
    if k = key then (k, v) :: rest else (k, v') :: setKey rest key v

/-- JS truthiness of a JSON value. -/
def jsTruthy : Json → Bool
  | Json.num n => n ≠ 0
  | Json.str s => s ≠ []
  | Json.bool b => b
  | Json.null => false
  | Json.arr _ => true
  | Json.obj _ => true

/-- JS numeric coercion of a JSON value, restricted to the cases the
claims exercise: numbers are themselves, booleans and null coerce to 0/1,
strings and containers are left uninterpreted (none, read as NaN: every
comparison against them is false, which is the JS behaviour for
non-numeric strings and the only payloads the claims quantify over). -/
def jsToNumber : Json → Option Int
  | Json.num n => some n
  | Json.bool true => some 1
  | Json.bool false => some 0
  | Json.null => some 0
  | _ => none

/-- Key "iat". -/
def iatKey : JsStr := [105, 97, 116]
/-- Key "exp". -/
def expKey : JsStr := [101, 120, 112]
/-- Key "iss". -/
def issKey : JsStr := [105, 115, 115]
/-- Key "aud". -/
def audKey : JsStr := [97, 117, 100]

/-! ## The JWT codec (src/unnamed/part_010)

HMAC-SHA256 (node:crypto createHmac) and JSON.stringify/JSON.parse are the
collaborator primitives the codec consumes; they appear as explicit
function parameters `hm` (key and message to digest bytes, message taken
as its ASCII code units since the signed text is base64url segments and
dots), `je` (JSON value to UTF-8 bytes) and `jd` (bytes to JSON value,
none on a parse error). -/

/-- The default key of the JWT class, the string "your-256-bit-secret"
(19 characters). -/
def defaultKey : JsStr :=
  [121, 111, 117, 114, 45, 50, 53, 54, 45, 98, 105, 116, 45, 115, 101, 99, 114, 101, 116]

/-- The default header object, alg "HS256" and typ "JWT". -/
def defaultHeader : JsObj :=
  [([97, 108, 103], Json.str [72, 83, 50, 53, 54]), ([116, 121, 112], Json.str [74, 87, 84])]

/-- Configuration state of a constructed JWT instance. -/
structure JWT where
  key : JsStr
  header : JsObj
  expiresIn : Option Int
  issuer : Option JsStr
  audience : Option JsStr

/-- Options accepted by the JWT constructor (JwtOptions). -/
structure JwtOptions where
  key : Option JsStr := none
  header : Option JsObj := none
  expiresIn : Option Int := none
  issuer : Option JsStr := none
  audience : Option JsStr := none

/-- Errors of the JWT constructor. -/
inductive ConfigErr where
  | keyTooShort
deriving DecidableEq, Repr

/-- The JWT constructor: fields default, provided options overwrite them
(the header by object spread), then the key is checked: an empty key or a
key shorter than 32 characters raises. -/
def JWT.mk' (opt : Option JwtOptions) : Except ConfigErr JWT :=
  let key := match opt with
    | some o => o.key.getD defaultKey
    | none => defaultKey
  let header := match opt with
    | some o => match o.header with
      | some h => h.foldl (fun acc kv => setKey acc kv.1 kv.2) defaultHeader
      | none => defaultHeader
    | none => defaultHeader
  let expiresIn := match opt with | some o => o.expiresIn | none => none
  let issuer := match opt with | some o => o.issuer | none => none
  let audience := match opt with | some o => o.audience | none => none
  if key = [] ∨ key.length < 32 then Except.error ConfigErr.keyTooShort
  else Except.ok { key := key, header := header, expiresIn := expiresIn,
                   issuer := issuer, audience := audience }

/-- getSignature: base64url of the HMAC-SHA256 digest of the message under
the instance key. -/
def JWT.getSignature (hm : JsStr → JsStr → List Nat) (self : JWT) (msg : JsStr) : JsStr :=
  b64urlEncode (hm self.key msg)

/-- The payload generate builds before encoding: the caller payload spread
first, then iat set to now; exp, iss and aud follow when the corresponding
option is truthy (a JS `if (this.expiresIn)` test, so 0 and the empty
string do not count as configured). -/
def JWT.finalPayload (self : JWT) (now : Nat) (payload : JsObj) : JsObj :=
  let f := setKey payload iatKey (Json.num (now : Int))
  let f := match self.expiresIn with
    | some e => if e ≠ 0 then setKey f expKey (Json.num ((now : Int) + e)) else f
    | none => f
  let f := match self.issuer with
    | some s => if s ≠ [] then setKey f issKey (Json.str s) else f
    | none => f
  match self.audience with
  | some s => if s ≠ [] then setKey f audKey (Json.str s) else f
  | none => f

/-- The base64url-encoded header segment of a generated token. -/
def JWT.headerSeg (je : Json → List Nat) (self : JWT) : JsStr :=
  b64urlEncode (je (Json.obj self.header))

/-- The base64url-encoded payload segment of a generated token. -/
def JWT.payloadSeg (je : Json → List Nat) (self : JWT) (now : Nat) (payload : JsObj) : JsStr :=
  b64urlEncode (je (Json.obj (self.finalPayload now payload)))

/-- generate: now is the floor of the millisecond clock over 1000; the
token is headerB64 ++ "." ++ payloadB64 ++ "." ++ signature. -/
def JWT.generate (je : Json → List Nat) (hm : JsStr → JsStr → List Nat)
    (self : JWT) (nowMs : Nat) (payload : JsObj) : JsStr :=
  let now := nowMs / 1000
  let h := self.headerSeg je
  let p := self.payloadSeg je now payload
  h ++ dotC :: p ++ dotC :: self.getSignature hm (h ++ dotC :: p)

/-- Modelled from the spec: node:crypto timingSafeEqual, the external
constant-time byte comparison primitive the source delegates to, whose
code is not in this repository; the model is the standard
accumulate-all-XORs loop with no data-dependent exit. -/
def timingSafeEqualM (a b : List Nat) : Bool :=
  (List.zipWith (fun x y => x ^^^ y) a b).foldl (fun acc d => acc ||| d) 0 == 0

/-- The signature acceptance test of verify, line 66 of the source: the
lengths must agree and timingSafeEqual must hold (the length guard runs
first because timingSafeEqual throws on unequal lengths). -/
def sigAccept (a b : List Nat) : Bool :=
  a.length == b.length && timingSafeEqualM a b

/-- The same acceptance test instrumented with a cost: the number of byte
comparison steps the XOR loop performs.  On a length mismatch the
short-circuiting disjunction never reaches timingSafeEqual, so no byte is
compared. -/
def sigCheckSteps (a b : List Nat) : Bool × Nat :=
  if a.length = b.length then (timingSafeEqualM a b, (List.zipWith (fun x y => x ^^^ y) a b).length)
  else (false, 0)

/-- The expiry test of verify, line 71: `payload.exp && Date.now() >= payload.exp * 1000`. -/
def expiredCheck (nowMs : Nat) (payload : Json) : Bool :=
  match getKey payload expKey with
  | some v =>
    jsTruthy v &&
      (match jsToNumber v with
       | some n => decide ((nowMs : Int) ≥ n * 1000)
       | none => false)
  | none => false

/-- The issuer test of verify, line 75: `this.issuer && payload.iss !== this.issuer`
(true means reject). -/
def issuerCheck (self : JWT) (payload : Json) : Bool :=
  match self.issuer with
  | some s =>
    s ≠ [] &&
      (match getKey payload issKey with
       | some (Json.str t) => t ≠ s
       | _ => true)
  | none => false

/-- The audience test of verify, line 80 (true means reject). -/
def audienceCheck (self : JWT) (payload : Json) : Bool :=
  match self.audience with
  | some s =>
    s ≠ [] &&
      (match getKey payload audKey with
       | some (Json.str t) => t ≠ s
       | _ => true)
  | none => false

/-- verify: split on "." into exactly three segments, recompute the
signature over the first two, compare decoded signature bytes (length
check then constant-time equality), decode the payload JSON, check expiry,
issuer and audience; every failure collapses to none. -/
def JWT.verify (jd : List Nat → Option Json) (hm : JsStr → JsStr → List Nat)
    (self : JWT) (nowMs : Nat) (token : JsStr) : Option Json :=
  match jsSplit dotC token with
  | [h, p, s] =>
    let msg := h ++ dotC :: p
    let signature := b64urlDecode s
    let expected := b64urlDecode (self.getSignature hm msg)
    if sigAccept signature expected then
      match jd (b64urlDecode p) with
      | some payload =>
        if expiredCheck nowMs payload then none
        else if issuerCheck self payload then none
        else if audienceCheck self payload then none
        else some payload
      | none => none
    else none
  | _ => none

/-- A correctly signed token carrying an arbitrary JSON payload value:
the two encoded segments with the genuine signature over them. -/
def mkSignedToken (je : Json → List Nat) (hm : JsStr → JsStr → List Nat)
    (self : JWT) (payload : Json) : JsStr :=
  let h := self.headerSeg je
  let p := b64urlEncode (je payload)
  h ++ dotC :: p ++ dotC :: self.getSignature hm (h ++ dotC :: p)

/-! ## Cookie codec (src/backend/Memory.ts, cookieParse and CookieVar) -/

/-- Errors raised while handling cookies. -/
inductive CookieErr where
  | emptyKey
  | uriError
deriving DecidableEq, Repr

/-- SameSite values. -/
inductive SameSite where
  | strict
  | lax
  | none
deriving DecidableEq, Repr

/-- A cookie record as the CookieVar class holds it.  The expires field (a
Date), the priority field and the per-record encode function are omitted:
no claim reads them, the claims' cookies leave them at their defaults, and
encode is fixed to encodeURIComponent in every use the claims touch. -/
structure CookieVar where
  name : JsStr
  value : JsStr
  domain : Option JsStr := Option.none
  path : JsStr := [47]
  maxAge : Option Int := Option.none
  secure : Bool := false
  httpOnly : Bool := false
  sameSite : Option SameSite := Option.none
  signed : Bool := false
deriving DecidableEq, Repr

/-- One step of cookieParse's loop over the ";"-separated entries: split
the entry on "=", trim the key, throw on an empty trimmed key, and bind
the key to the URL-decoded trimmed remainder (re-joined on "="), or to the
key itself when the entry has no "=". -/
def cookieEntryStep (acc : List (JsStr × CookieVar)) (line : JsStr) :
    Except CookieErr (List (JsStr × CookieVar)) :=
  let parts := jsSplit eqC line
  let key := parts.headD []
  let valueParts := parts.tail
  let trimmedKey := jsTrim key
  if trimmedKey = [] then Except.error CookieErr.emptyKey
  else
    match (if valueParts.length > 0 then pctDecode (jsTrim (jsJoin eqC valueParts)) else some trimmedKey) with
    | some value => Except.ok (setAssoc acc trimmedKey { name := trimmedKey, value := value })
    | none => Except.error CookieErr.uriError
where
  /-- Assignment into the cookies object: overwrite an existing name in
  place, else append. -/
  setAssoc : List (JsStr × CookieVar) → JsStr → CookieVar → List (JsStr × CookieVar)
    | [], k, v => [(k, v)]
    | (k', v') :: rest, k, v =>
      if k' = k then (k', v) :: rest else (k', v') :: setAssoc rest k v

/-- cookieParse: the empty string short-circuits to the empty record;
otherwise split on ";" and fold the per-entry step.  The thrown JS errors
become the error side of Except. -/
def cookieParse (str : JsStr) : Except CookieErr (List (JsStr × CookieVar)) :=
  if str = [] then Except.ok []
  else (jsSplit semiC str).foldlM cookieEntryStep []

/-- The cookie parser exactly as claim C7 words it: for every string
header value, split on ";", split each entry on the first "=", trim the
key, fail when the trimmed key is empty, URL-decode the value, use the key
itself as the value when the entry has no "=", later duplicates
overwriting earlier ones.  (No empty-header guard and no trimming of the
value: the claim names neither.) -/
def cookieParseClaim (str : JsStr) : Except CookieErr (List (JsStr × CookieVar)) :=
  (jsSplit semiC str).foldlM claimStep []
where
  /-- Per-entry step in the claim's words. -/
  claimStep (acc : List (JsStr × CookieVar)) (line : JsStr) :
      Except CookieErr (List (JsStr × CookieVar)) :=
    let parts := jsSplit eqC line
    let key := parts.headD []
    let valueParts := parts.tail
    let trimmedKey := jsTrim key
    if trimmedKey = [] then Except.error CookieErr.emptyKey
    else
      match (if valueParts.length > 0 then pctDecode (jsJoin eqC valueParts) else some trimmedKey) with
      | some value => Except.ok (cookieEntryStep.setAssoc acc trimmedKey { name := trimmedKey, value := value })
      | none => Except.error CookieErr.uriError

/-- cookieParse as claim C7 amends it: identical to the claim's wording
except that the empty header value yields the empty record without being
split, and each value is trimmed before URL-decoding — the two details the
source adds. -/
def cookieParseAmended (str : JsStr) : Except CookieErr (List (JsStr × CookieVar)) :=
  if str = [] then Except.ok []
  else (jsSplit semiC str).foldlM amendedStep []
where
  /-- Per-entry step in the amended claim's words. -/
  amendedStep (acc : List (JsStr × CookieVar)) (line : JsStr) :
      Except CookieErr (List (JsStr × CookieVar)) :=
    let parts := jsSplit eqC line
    let key := parts.headD []
    let valueParts := parts.tail
    let trimmedKey := jsTrim key
    if trimmedKey = [] then Except.error CookieErr.emptyKey
    else
      match (if valueParts.length > 0 then pctDecode (jsTrim (jsJoin eqC valueParts)) else some trimmedKey) with
      | some value => Except.ok (cookieEntryStep.setAssoc acc trimmedKey { name := trimmedKey, value := value })
      | none => Except.error CookieErr.uriError

/-! ## In-memory session store and manager
(src/backend/Memory.ts Session/Memory, src/backend/Manager.ts Manager) -/

/-- A session as a value: its id and its data object. -/
structure Session where
  id : JsStr
  data : JsObj
deriving Repr

/-- The Memory machine's state: the sessions map, insertion-ordered. -/
abbrev Machine := List (JsStr × Session)

/-- Memory.read: the stored session for an id, if any. -/
def machineRead (m : Machine) (id : JsStr) : Option Session :=
  match m with
  | [] => Option.none
  | (k, s) :: rest => if k = id then some s else machineRead rest id

/-- Memory.init: return the stored session for the id, creating and
storing a fresh one (empty data) when none exists. -/
def machineInit (m : Machine) (id : JsStr) : Session × Machine :=
  match machineRead m id with
  | some s => (s, m)
  | Option.none => let s : Session := { id := id, data := [] }; (s, m ++ [(id, s)])

/-- Memory.destroy: remove the id's entry. -/
def machineDestroy (m : Machine) (id : JsStr) : Machine :=
  m.filter (fun kv => kv.1 ≠ id)

/-- Manager configuration (the parts start exercises). -/
structure ManagerCfg where
  cookieName : JsStr
  optSecure : Option Bool := Option.none
  optHttpOnly : Option Bool := Option.none
  optSameSite : Option SameSite := Option.none

/-- The id-regeneration loop of Manager.start: draw ids from the random
source (modelled as a stream indexed by draw count) until one is unused.
The source loop has no bound; the model carries fuel and reports
exhaustion as none, which the theorems rule out by hypothesis. -/
def freshIdLoop (m : Machine) (gen : Nat → JsStr) (k : Nat) : Nat → Option JsStr
  | 0 => Option.none
  | fuel + 1 =>
    let id := gen k
    match machineRead m id with
    | some _ => freshIdLoop m gen (k + 1) fuel
    | Option.none => some id

/-- Errors out of Manager.start in the model: a propagated cookie-parse
error, or exhaustion of the modelled random stream (the source would spin
forever). -/
inductive StartErr where
  | cookie : CookieErr → StartErr
  | outOfIds
deriving DecidableEq, Repr

/-- The outcome of Manager.start: the session, the machine state after,
and the Set-Cookie records emitted. -/
structure StartResult where
  session : Session
  machine : Machine
  emitted : List CookieVar
deriving Repr

/-- Manager.start: parse the request's cookies (the CookieHandler
constructor, whose parse error propagates — there is no catch in the
source), read the configured cookie's value; when it is absent or empty,
generate a fresh unused id and emit a session cookie with secure, httpOnly
and sameSite defaulted to true/true/Strict; finally return machine.init
of the id. -/
def managerStart (cfg : ManagerCfg) (m : Machine) (gen : Nat → JsStr) (fuel : Nat)
    (cookieHeader : JsStr) : Except StartErr StartResult :=
  match cookieParse cookieHeader with
  | Except.error e => Except.error (StartErr.cookie e)
  | Except.ok cookies =>
    let idFromCookie := (objGetCv cookies cfg.cookieName).map CookieVar.value
    match idFromCookie with
    | some v =>
      if v = [] then startFresh cfg m gen fuel
      else
        let (s, m') := machineInit m v
        Except.ok { session := s, machine := m', emitted := [] }
    | Option.none => startFresh cfg m gen fuel
where
  /-- Cookie lookup by name in the parsed record. -/
  objGetCv : List (JsStr × CookieVar) → JsStr → Option CookieVar
    | [], _ => Option.none
    | (k, v) :: rest, key => if k = key then some v else objGetCv rest key
  /-- The no-cookie branch: fresh id, session cookie emission, init. -/
  startFresh (cfg : ManagerCfg) (m : Machine) (gen : Nat → JsStr) (fuel : Nat) :
      Except StartErr StartResult :=
    match freshIdLoop m gen 0 fuel with
    | Option.none => Except.error StartErr.outOfIds
    | some id =>
      let cookie : CookieVar :=
        { name := cfg.cookieName, value := id,
          secure := cfg.optSecure.getD true,
          httpOnly := cfg.optHttpOnly.getD true,
          sameSite := some (cfg.optSameSite.getD SameSite.strict) }
      let (s, m') := machineInit m id
      Except.ok { session := s, machine := m', emitted := [cookie] }

/-! ## Aliasing model for Session.getData / Session.loadSession (C10)

The shallow-copy claims are about JS object identity, so this part models
the mutable store explicitly: a heap maps addresses to plain data objects,
and a session holds the address of its data object. -/

/-- A heap of JS data objects: address/content pairs plus the next fresh
address. -/
structure Heap where
  objs : List (Nat × JsObj)
  next : Nat

/-- First-match lookup of an address in the object list. -/
def objsRead : List (Nat × JsObj) → Nat → JsObj
  | [], _ => []
  | (k, o) :: rest, a => if k = a then o else objsRead rest a

/-- Read the object at an address (absent addresses read as empty, never
exercised under the freshness invariant). -/
def hRead (h : Heap) (a : Nat) : JsObj := objsRead h.objs a

/-- Allocate a fresh object with the given content. -/
def hAlloc (h : Heap) (o : JsObj) : Nat × Heap :=
  (h.next, { objs := (h.next, o) :: h.objs, next := h.next + 1 })

/-- Mutate one property of the object at an address. -/
def hWrite (h : Heap) (a : Nat) (k : JsStr) (v : Json) : Heap :=
  { h with objs := h.objs.map (fun kv => if kv.1 = a then (kv.1, setKey kv.2 k v) else kv) }

/-- A session in the aliasing model: an id and the address of its data
object. -/
structure SessionRef where
  id : JsStr
  dataRef : Nat

/-- Session.getData: return a shallow copy of the data object — a freshly
allocated object with the same top-level entries. -/
def sessionGetData (h : Heap) (s : SessionRef) : Nat × Heap :=
  hAlloc h (hRead h s.dataRef)

/-- Session.loadSession: replace the session's data with a shallow copy of
the argument object — point the session at a freshly allocated copy. -/
def sessionLoadSession (h : Heap) (s : SessionRef) (a : Nat) : SessionRef × Heap :=
  let (r, h') := hAlloc h (hRead h a)
  ({ s with dataRef := r }, h')

/-! ## Lemmas about string splitting -/

/-- The cons unfolding of jsSplit. -/
theorem jsSplit_cons (sep c : Nat) (l : List Nat) :
    jsSplit sep (c :: l) =
      match jsSplit sep l with
      | [] => [[]]
      | cur :: done => if c = sep then [] :: cur :: done else (c :: cur) :: done := rfl

/-- jsSplit never returns the empty list of segments. -/
theorem jsSplit_ne_nil (sep : Nat) (l : List Nat) : jsSplit sep l ≠ [] := by
  cases l with
  | nil => simp [jsSplit]
  | cons c rest =>
    rw [jsSplit_cons]
    cases h : jsSplit sep rest with
    | nil => simp
    | cons cur done => by_cases hc : c = sep <;> simp [hc]

/-- A list without the separator splits into itself alone. -/
theorem jsSplit_of_not_mem {sep : Nat} {l : List Nat} (h : sep ∉ l) :
    jsSplit sep l = [l] := by
  induction l with
  | nil => rfl
  | cons c rest ih =>
    have hc : c ≠ sep := fun he => h (he ▸ List.mem_cons_self c rest)
    have hr : sep ∉ rest := fun hm => h (List.mem_cons_of_mem _ hm)
    rw [jsSplit_cons, ih hr]
    simp [hc]

/-- Splitting a list that starts with a separator-free chunk followed by a
separator peels off that chunk. -/
theorem jsSplit_append_sep {sep : Nat} {a b : List Nat} (ha : sep ∉ a) :
    jsSplit sep (a ++ sep :: b) = a :: jsSplit sep b := by
  induction a with
  | nil =>
    simp only [List.nil_append]
    rw [jsSplit_cons]
    cases h : jsSplit sep b with
    | nil => exact absurd h (jsSplit_ne_nil sep b)
    | cons cur done => simp
  | cons c rest ih =>
    have hc : c ≠ sep := fun he => ha (he ▸ List.mem_cons_self c rest)
    have hr : sep ∉ rest := fun hm => ha (List.mem_cons_of_mem _ hm)
    rw [List.cons_append, jsSplit_cons, ih hr]
    simp [hc]

/-- A three-segment dot-separated string splits into exactly its three
segments when none of them contains the dot. -/
theorem jsSplit_three {sep : Nat} {h p s : List Nat}
    (hh : sep ∉ h) (hp : sep ∉ p) (hs : sep ∉ s) :
    jsSplit sep (h ++ sep :: (p ++ sep :: s)) = [h, p, s] := by
  rw [jsSplit_append_sep hh, jsSplit_append_sep hp, jsSplit_of_not_mem hs]

/-- Joining undoes splitting. -/
theorem jsJoin_jsSplit (sep : Nat) (l : List Nat) :
    jsJoin sep (jsSplit sep l) = l := by
  induction l with
  | nil => rfl
  | cons c rest ih =>
    rw [jsSplit_cons]
    cases h : jsSplit sep rest with
    | nil => exact absurd h (jsSplit_ne_nil sep rest)
    | cons cur done =>
      rw [h] at ih
      by_cases hc : c = sep
      · subst hc
        simp only [if_pos rfl, jsJoin]
        cases done <;> simpa [jsJoin] using ih
      · simp only [if_neg hc]
        cases done <;> simpa [jsJoin] using ih

/-! ## Lemmas about base64url -/

/-- Every character the encoder produces is in the alphabet. -/
theorem isB64Code_sextToCode (v : Nat) : isB64Code (sextToCode v) = true := by
  simp only [sextToCode, isB64Code, Bool.or_eq_true, Bool.and_eq_true,
    decide_eq_true_eq]
  split <;> rename_i h1
  · left; left; left; omega
  · split <;> rename_i h2
    · left; left; left; right; omega
    · split <;> rename_i h3
      · left; left; right; omega
      · split <;> rename_i h4
        · left; right; rfl
        · right; rfl

/-- Decoding a character the encoder produced recovers the sextet. -/
theorem codeToSext_sextToCode {v : Nat} (hv : v < 64) :
    codeToSext (sextToCode v) = v := by
  simp only [sextToCode, codeToSext]
  split <;> rename_i h1
  · rw [if_pos (by omega)]; omega
  · split <;> rename_i h2
    · rw [if_neg (by omega), if_pos (by omega)]; omega
    · split <;> rename_i h3
      · rw [if_neg (by omega), if_neg (by omega), if_pos (by omega)]; omega
      · split <;> rename_i h4
        · rw [if_neg (by omega), if_neg (by omega), if_neg (by omega), if_pos (by omega)]
          omega
        · rw [if_neg (by omega), if_neg (by omega), if_neg (by omega), if_neg (by omega),
            if_pos rfl]
          omega

/-- Encoding the sextet of an alphabet character recovers the character. -/
theorem sextToCode_codeToSext {c : Nat} (hc : isB64Code c = true) :
    sextToCode (codeToSext c) = c := by
  simp only [isB64Code, Bool.or_eq_true, Bool.and_eq_true, decide_eq_true_eq] at hc
  simp only [codeToSext]
  split <;> rename_i h1
  · simp only [sextToCode]; rw [if_pos (by omega)]; omega
  · split <;> rename_i h2
    · simp only [sextToCode]; rw [if_neg (by omega), if_pos (by omega)]; omega
    · split <;> rename_i h3
      · simp only [sextToCode]; rw [if_neg (by omega), if_neg (by omega), if_pos (by omega)]
        omega
      · split <;> rename_i h4
        · subst h4; rfl
        · split <;> rename_i h5
          · subst h5; rfl
          · omega

/-- Sextet values are below 64. -/
theorem codeToSext_lt (c : Nat) : codeToSext c < 64 := by
  simp only [codeToSext]
  split
  · omega
  split
  · omega
  split
  · omega
  split
  · omega
  split <;> omega

/-- The dot is not a base64url character. -/
theorem isB64Code_dot : isB64Code dotC = false := by decide

/-- On alphabet characters, codeToSext is injective. -/
theorem codeToSext_inj {a b : Nat} (ha : isB64Code a = true) (hb : isB64Code b = true)
    (h : codeToSext a = codeToSext b) : a = b := by
  have := sextToCode_codeToSext ha
  rw [← this, h, sextToCode_codeToSext hb]

/-- Every character of encoder output is in the alphabet. -/
theorem b64urlEncode_all_b64 (l : List Nat) :
    ∀ c ∈ b64urlEncode l, isB64Code c = true := by
  induction l using b64urlEncode.induct with
  | case1 b0 b1 b2 rest ih =>
    intro c hmem
    simp only [b64urlEncode, List.mem_cons] at hmem
    rcases hmem with h | h | h | h | h
    · rw [h]; exact isB64Code_sextToCode _
    · rw [h]; exact isB64Code_sextToCode _
    · rw [h]; exact isB64Code_sextToCode _
    · rw [h]; exact isB64Code_sextToCode _
    · exact ih c h
  | case2 b0 b1 =>
    intro c hmem
    simp only [b64urlEncode, List.mem_cons, List.not_mem_nil, or_false] at hmem
    rcases hmem with h | h | h <;> (rw [h]; exact isB64Code_sextToCode _)
  | case3 b0 =>
    intro c hmem
    simp only [b64urlEncode, List.mem_cons, List.not_mem_nil, or_false] at hmem
    rcases hmem with h | h <;> (rw [h]; exact isB64Code_sextToCode _)
  | case4 => intro c hmem; simp [b64urlEncode] at hmem

/-- The dot never occurs in encoder output. -/
theorem dot_not_mem_b64urlEncode (l : List Nat) : dotC ∉ b64urlEncode l := by
  intro hmem
  have h1 := b64urlEncode_all_b64 l dotC hmem
  rw [isB64Code_dot] at h1
  exact Bool.false_ne_true h1

/-- The sextet sequence the encoder commits to a byte list, computed
directly from the bytes. -/
def bytesToSexts : List Nat → List Nat
  | b0 :: b1 :: b2 :: rest =>
    (b0 / 4) :: ((b0 % 4) * 16 + b1 / 16) :: ((b1 % 16) * 4 + b2 / 64) :: (b2 % 64) :: bytesToSexts rest
  | [b0, b1] => [b0 / 4, (b0 % 4) * 16 + b1 / 16, (b1 % 16) * 4]
  | [b0] => [b0 / 4, (b0 % 4) * 16]
  | [] => []

/-- Reading the sextets back out of encoder output recovers exactly the
committed sextets, provided the input was genuine bytes. -/
theorem sextetsOf_b64urlEncode {l : List Nat} (hb : ∀ b ∈ l, b < 256) :
    sextetsOf (b64urlEncode l) = bytesToSexts l := by
  induction l using b64urlEncode.induct with
  | case1 b0 b1 b2 rest ih =>
    have h0 : b0 < 256 := hb b0 (by simp)
    have h1 : b1 < 256 := hb b1 (by simp)
    have h2 : b2 < 256 := hb b2 (by simp)
    have hrest : ∀ b ∈ rest, b < 256 := fun b hm => hb b (by simp [hm])
    have e1 : codeToSext (sextToCode (b0 / 4)) = b0 / 4 :=
      codeToSext_sextToCode (by omega)
    have e2 : codeToSext (sextToCode ((b0 % 4) * 16 + b1 / 16)) = (b0 % 4) * 16 + b1 / 16 :=
      codeToSext_sextToCode (by omega)
    have e3 : codeToSext (sextToCode ((b1 % 16) * 4 + b2 / 64)) = (b1 % 16) * 4 + b2 / 64 :=
      codeToSext_sextToCode (by omega)
    have e4 : codeToSext (sextToCode (b2 % 64)) = b2 % 64 :=
      codeToSext_sextToCode (by omega)
    have hr := ih hrest
    simp only [sextetsOf] at hr
    simp only [b64urlEncode, bytesToSexts, sextetsOf, List.filter_cons,
      isB64Code_sextToCode, if_true, List.map_cons, e1, e2, e3, e4, hr]
  | case2 b0 b1 =>
    have h0 : b0 < 256 := hb b0 (by simp)
    have h1 : b1 < 256 := hb b1 (by simp)
    have e1 : codeToSext (sextToCode (b0 / 4)) = b0 / 4 :=
      codeToSext_sextToCode (by omega)
    have e2 : codeToSext (sextToCode ((b0 % 4) * 16 + b1 / 16)) = (b0 % 4) * 16 + b1 / 16 :=
      codeToSext_sextToCode (by omega)
    have e3 : codeToSext (sextToCode ((b1 % 16) * 4)) = (b1 % 16) * 4 :=
      codeToSext_sextToCode (by omega)
    simp only [b64urlEncode, bytesToSexts, sextetsOf, List.filter_cons,
      isB64Code_sextToCode, if_true, List.map_cons, e1, e2, e3, List.filter_nil,
      List.map_nil]
  | case3 b0 =>
    have h0 : b0 < 256 := hb b0 (by simp)
    have e1 : codeToSext (sextToCode (b0 / 4)) = b0 / 4 :=
      codeToSext_sextToCode (by omega)
    have e2 : codeToSext (sextToCode ((b0 % 4) * 16)) = (b0 % 4) * 16 :=
      codeToSext_sextToCode (by omega)
    simp only [b64urlEncode, bytesToSexts, sextetsOf, List.filter_cons,
      isB64Code_sextToCode, if_true, List.map_cons, e1, e2, List.filter_nil,
      List.map_nil]
  | case4 => rfl

/-- Reassembling the committed sextets recovers the bytes. -/
theorem decodeSex_bytesToSexts {l : List Nat} (hb : ∀ b ∈ l, b < 256) :
    decodeSex (bytesToSexts l) = l := by
  induction l using bytesToSexts.induct with
  | case1 b0 b1 b2 rest ih =>
    have h0 : b0 < 256 := hb b0 (by simp)
    have h1 : b1 < 256 := hb b1 (by simp)
    have h2 : b2 < 256 := hb b2 (by simp)
    have hrest : ∀ b ∈ rest, b < 256 := fun b hm => hb b (by simp [hm])
    simp only [bytesToSexts, decodeSex, ih hrest, List.cons.injEq]
    exact ⟨by omega, by omega, by omega, trivial⟩
  | case2 b0 b1 =>
    have h0 : b0 < 256 := hb b0 (by simp)
    have h1 : b1 < 256 := hb b1 (by simp)
    simp only [bytesToSexts, decodeSex, List.cons.injEq]
    exact ⟨by omega, by omega, trivial⟩
  | case3 b0 =>
    have h0 : b0 < 256 := hb b0 (by simp)
    simp only [bytesToSexts, decodeSex, List.cons.injEq]
    exact ⟨by omega, trivial⟩
  | case4 => rfl

/-- base64url round trip on genuine byte lists. -/
theorem b64urlDecode_b64urlEncode {l : List Nat} (hb : ∀ b ∈ l, b < 256) :
    b64urlDecode (b64urlEncode l) = l := by
  rw [b64urlDecode, sextetsOf_b64urlEncode hb, decodeSex_bytesToSexts hb]

/-! ## Lemmas about JS objects -/

/-- Reading the key just assigned. -/
theorem objGet_setKey_same (o : JsObj) (k : JsStr) (v : Json) :
    objGet (setKey o k v) k = some v := by
  induction o with
  | nil => simp [setKey, objGet]
  | cons kv rest ih =>
    obtain ⟨k', v'⟩ := kv
    by_cases h : k' = k
    · simp [setKey, h, objGet]
    · simp [setKey, h, objGet, ih]

/-- Reading another key after an assignment. -/
theorem objGet_setKey_other (o : JsObj) {k k' : JsStr} (v : Json) (h : k' ≠ k) :
    objGet (setKey o k v) k' = objGet o k' := by
  induction o with
  | nil => simp [setKey, objGet, Ne.symm h]
  | cons kv rest ih =>
    obtain ⟨k0, v0⟩ := kv
    by_cases h0 : k0 = k
    · subst h0
      have hk : k0 ≠ k' := Ne.symm h
      simp [setKey, objGet, hk, h]
    · by_cases h1 : k0 = k'
      · simp [setKey, h0, objGet, h1, h]
      · simp [setKey, h0, objGet, h1, h, ih]

/-! ## Lemmas about the signature comparison -/

/-- A vanishing OR forces both operands to vanish. -/
theorem lor_eq_zero_split {a b : Nat} (h : a ||| b = 0) : a = 0 ∧ b = 0 := by
  have ht : ∀ i, a.testBit i = false ∧ b.testBit i = false := by
    intro i
    have h2 := congrArg (fun n => Nat.testBit n i) h
    simpa [Nat.testBit_or] using h2
  constructor
  · apply Nat.eq_of_testBit_eq; intro i; simp [(ht i).1]
  · apply Nat.eq_of_testBit_eq; intro i; simp [(ht i).2]

/-- The XOR-accumulate comparison accepts a buffer against itself. -/
theorem timingSafeEqualM_self (a : List Nat) : timingSafeEqualM a a = true := by
  have h : ∀ acc : Nat, (List.zipWith (fun x y => x ^^^ y) a a).foldl
      (fun acc d => acc ||| d) acc = acc := by
    induction a with
    | nil => intro acc; rfl
    | cons x rest ih =>
      intro acc
      simp only [List.zipWith_cons_cons, List.foldl_cons, Nat.xor_self, Nat.or_zero]
      exact ih acc
  simp only [timingSafeEqualM]
  rw [h 0]
  rfl

/-- A vanishing OR-accumulation forces every element to vanish. -/
theorem foldl_or_eq_zero {l : List Nat} {acc : Nat}
    (h : l.foldl (fun acc d => acc ||| d) acc = 0) : acc = 0 ∧ ∀ d ∈ l, d = 0 := by
  induction l generalizing acc with
  | nil => exact ⟨h, by simp⟩
  | cons x rest ih =>
    simp only [List.foldl_cons] at h
    obtain ⟨hacc, hrest⟩ := ih h
    obtain ⟨h1, h2⟩ := lor_eq_zero_split hacc
    refine ⟨h1, ?_⟩
    intro d hd
    rcases List.mem_cons.mp hd with h3 | h3
    · rw [h3]; exact h2
    · exact hrest d h3

/-- Equal-length lists whose pointwise XORs vanish are equal. -/
theorem eq_of_zipWith_xor_zero : ∀ {a b : List Nat}, a.length = b.length →
    (∀ d ∈ List.zipWith (fun x y => x ^^^ y) a b, d = 0) → a = b
  | [], [], _, _ => rfl
  | [], _ :: _, hlen, _ => by simp at hlen
  | _ :: _, [], hlen, _ => by simp at hlen
  | x :: xs, y :: ys, hlen, hall => by
    have hx : x = y := Nat.xor_eq_zero.mp (hall _ (by simp))
    have htl : xs = ys := by
      apply eq_of_zipWith_xor_zero (by simpa using hlen)
      intro d hd
      exact hall d (by simp [hd])
    rw [hx, htl]

/-- On equal-length buffers the comparison accepts exactly equality. -/
theorem timingSafeEqualM_eq_iff {a b : List Nat} (hlen : a.length = b.length) :
    timingSafeEqualM a b = true ↔ a = b := by
  constructor
  · intro h
    simp only [timingSafeEqualM, beq_iff_eq] at h
    obtain ⟨-, hall⟩ := foldl_or_eq_zero h
    exact eq_of_zipWith_xor_zero hlen hall
  · intro h; rw [h]; exact timingSafeEqualM_self b

/-- The acceptance test accepts a buffer against itself. -/
theorem sigAccept_self (a : List Nat) : sigAccept a a = true := by
  simp [sigAccept, timingSafeEqualM_self]

/-- The acceptance test rejects distinct buffers of equal length. -/
theorem sigAccept_ne {a b : List Nat} (hlen : a.length = b.length) (hne : a ≠ b) :
    sigAccept a b = false := by
  simp only [sigAccept, Bool.and_eq_false_iff]
  right
  rcases h : timingSafeEqualM a b with _ | _
  · rfl
  · exact absurd ((timingSafeEqualM_eq_iff hlen).mp h) hne

/-! ## Claim C9: constructing without a key always fails -/

/-- C9: constructing the token codec without supplying a key always fails:
the built-in default key "your-256-bit-secret" has 19 characters, below the
required 32, so both a bare construction and any options value with no key
raise the key-too-short configuration error. -/
theorem jwt_constructor_keyless_fails :
    JWT.mk' none = Except.error ConfigErr.keyTooShort
    ∧ ∀ opt : JwtOptions, opt.key = none →
        JWT.mk' (some opt) = Except.error ConfigErr.keyTooShort := by
  constructor
  · rfl
  · intro opt h
    simp [JWT.mk', h, defaultKey]

/-- Witness for C9: a concrete options value carrying expiresIn but no key
is rejected. -/
theorem jwt_constructor_keyless_fails_witness :
    JWT.mk' (some { key := none, expiresIn := some 60 }) =
      Except.error ConfigErr.keyTooShort :=
  jwt_constructor_keyless_fails.2 { key := none, expiresIn := some 60 } rfl

/-! ## Claim C8: constant-time signature comparison -/

/-- C8: the signature acceptance test fails immediately on a byte-length
mismatch (zero comparison steps), otherwise performs a number of
comparison steps equal to the common length — independent of the buffer
contents, hence of the position of the first differing byte — and its
verdict is exactly the acceptance decision verify uses. -/
theorem sig_compare_constant_time :
    (∀ a b : List Nat, a.length ≠ b.length → sigCheckSteps a b = (false, 0))
    ∧ (∀ a b : List Nat, a.length = b.length → (sigCheckSteps a b).2 = a.length)
    ∧ (∀ a b : List Nat, (sigCheckSteps a b).1 = sigAccept a b) := by
  refine ⟨?_, ?_, ?_⟩
  · intro a b h
    simp [sigCheckSteps, h]
  · intro a b h
    simp [sigCheckSteps, h, List.length_zipWith]
  · intro a b
    by_cases h : a.length = b.length
    · simp [sigCheckSteps, sigAccept, h]
    · simp [sigCheckSteps, sigAccept, h]

/-- Witness for C8: mismatched lengths fail with no comparison step, and
two equal-length buffers differing in their first byte still cost the full
length. -/
theorem sig_compare_constant_time_witness :
    sigCheckSteps [1] [2, 3] = (false, 0)
    ∧ (sigCheckSteps [9, 2] [3, 4]).2 = [9, 2].length
    ∧ (sigCheckSteps [9, 2] [3, 4]).1 = sigAccept [9, 2] [3, 4] :=
  ⟨sig_compare_constant_time.1 [1] [2, 3] (by decide),
   sig_compare_constant_time.2.1 [9, 2] [3, 4] (by decide),
   sig_compare_constant_time.2.2 [9, 2] [3, 4]⟩

/-! ## Claim C4: the payload generate builds -/

/-- C4 over-claims: the source guards each reserved claim with a JS
truthiness test, so a codec configured with expiresIn equal to 0 adds no
exp claim even though it was configured with expiresIn.  Concretely, with
expiresIn set to 0 the built payload of an empty caller payload has no exp
key. -/
theorem finalPayload_expiresIn_zero_no_exp :
    objGet
      (JWT.finalPayload
        { key := List.replicate 32 97, header := defaultHeader,
          expiresIn := some 0, issuer := none, audience := none }
        5 [])
      expKey = none := by
  rfl

/-- Optional assignment: set the key when a value is supplied, otherwise
leave the object unchanged. -/
def condSetKey (o : JsObj) (k : JsStr) (ov : Option Json) : JsObj :=
  match ov with
  | some v => setKey o k v
  | none => o

/-- Reading the conditionally assigned key. -/
theorem objGet_condSetKey_same (o : JsObj) (k : JsStr) (ov : Option Json) :
    objGet (condSetKey o k ov) k = match ov with | some v => some v | none => objGet o k := by
  cases ov with
  | some v => simp [condSetKey, objGet_setKey_same]
  | none => rfl

/-- Reading another key through a conditional assignment. -/
theorem objGet_condSetKey_other (o : JsObj) {k k' : JsStr} (ov : Option Json) (h : k' ≠ k) :
    objGet (condSetKey o k ov) k' = objGet o k' := by
  cases ov with
  | some v => simp [condSetKey, objGet_setKey_other _ _ h]
  | none => rfl

/-- The exp value finalPayload conditionally assigns. -/
def expVal (self : JWT) (now : Nat) : Option Json :=
  match self.expiresIn with
  | some e => if e ≠ 0 then some (Json.num ((now : Int) + e)) else none
  | none => none

/-- The iss value finalPayload conditionally assigns. -/
def issVal (self : JWT) : Option Json :=
  match self.issuer with
  | some s => if s ≠ [] then some (Json.str s) else none
  | none => none

/-- The aud value finalPayload conditionally assigns. -/
def audVal (self : JWT) : Option Json :=
  match self.audience with
  | some s => if s ≠ [] then some (Json.str s) else none
  | none => none

/-- finalPayload is the iat assignment followed by the three conditional
reserved-claim assignments. -/
theorem finalPayload_eq_condSet (self : JWT) (now : Nat) (P : JsObj) :
    self.finalPayload now P =
      condSetKey
        (condSetKey
          (condSetKey (setKey P iatKey (Json.num (now : Int))) expKey (expVal self now))
          issKey (issVal self))
        audKey (audVal self) := by
  rcases hex : self.expiresIn with _ | e <;> rcases his : self.issuer with _ | si <;>
    rcases has : self.audience with _ | sa <;>
      simp only [JWT.finalPayload, expVal, issVal, audVal, hex, his, has] <;>
        (try split_ifs) <;> simp [condSetKey]

/-- Full characterization of the payload generate builds (helper shared by
several claims). -/
theorem finalPayload_props (self : JWT) (now : Nat) (P : JsObj) :
    objGet (self.finalPayload now P) iatKey = some (Json.num (now : Int))
    ∧ (∀ e : Int, self.expiresIn = some e → e ≠ 0 →
        objGet (self.finalPayload now P) expKey = some (Json.num ((now : Int) + e)))
    ∧ (self.expiresIn = none ∨ self.expiresIn = some 0 →
        objGet (self.finalPayload now P) expKey = objGet P expKey)
    ∧ (∀ s : JsStr, self.issuer = some s → s ≠ [] →
        objGet (self.finalPayload now P) issKey = some (Json.str s))
    ∧ (self.issuer = none ∨ self.issuer = some [] →
        objGet (self.finalPayload now P) issKey = objGet P issKey)
    ∧ (∀ s : JsStr, self.audience = some s → s ≠ [] →
        objGet (self.finalPayload now P) audKey = some (Json.str s))
    ∧ (self.audience = none ∨ self.audience = some [] →
        objGet (self.finalPayload now P) audKey = objGet P audKey)
    ∧ (∀ k : JsStr, k ≠ iatKey → k ≠ expKey → k ≠ issKey → k ≠ audKey →
        objGet (self.finalPayload now P) k = objGet P k) := by
  rw [finalPayload_eq_condSet]
  refine ⟨?_, ?_, ?_, ?_, ?_, ?_, ?_, ?_⟩
  · rw [objGet_condSetKey_other _ _ (by decide), objGet_condSetKey_other _ _ (by decide),
      objGet_condSetKey_other _ _ (by decide), objGet_setKey_same]
  · intro e he hne
    rw [objGet_condSetKey_other _ _ (by decide), objGet_condSetKey_other _ _ (by decide),
      objGet_condSetKey_same]
    simp [expVal, he, hne]
  · intro h
    rw [objGet_condSetKey_other _ _ (by decide), objGet_condSetKey_other _ _ (by decide),
      objGet_condSetKey_same]
    have : expVal self now = none := by
      rcases h with h | h <;> simp [expVal, h]
    rw [this, objGet_setKey_other _ _ (by decide)]
  · intro s hs hne
    rw [objGet_condSetKey_other _ _ (by decide), objGet_condSetKey_same]
    simp [issVal, hs, hne]
  · intro h
    rw [objGet_condSetKey_other _ _ (by decide), objGet_condSetKey_same]
    have : issVal self = none := by
      rcases h with h | h <;> simp [issVal, h]
    rw [this, objGet_condSetKey_other _ _ (by decide), objGet_setKey_other _ _ (by decide)]
  · intro s hs hne
    rw [objGet_condSetKey_same]
    simp [audVal, hs, hne]
  · intro h
    rw [objGet_condSetKey_same]
    have : audVal self = none := by
      rcases h with h | h <;> simp [audVal, h]
    rw [this, objGet_condSetKey_other _ _ (by decide), objGet_condSetKey_other _ _ (by decide),
      objGet_setKey_other _ _ (by decide)]
  · intro k hk1 hk2 hk3 hk4
    rw [objGet_condSetKey_other _ _ hk4, objGet_condSetKey_other _ _ hk3,
      objGet_condSetKey_other _ _ hk2, objGet_setKey_other _ _ hk1]

/-- C4 as amended: iat is always set to now (overwriting any
caller-supplied iat); exp, iss and aud are set (overwriting caller claims
of the same name) exactly when the corresponding option is configured with
a truthy value (nonzero expiresIn, non-empty issuer/audience); with a
falsy or absent option the caller's claim of that name, if any, is left
untouched; and every other claim of the caller survives unchanged. -/
theorem jwt_finalPayload_characterization (self : JWT) (now : Nat) (P : JsObj) :
    objGet (self.finalPayload now P) iatKey = some (Json.num (now : Int))
    ∧ (∀ e : Int, self.expiresIn = some e → e ≠ 0 →
        objGet (self.finalPayload now P) expKey = some (Json.num ((now : Int) + e)))
    ∧ (self.expiresIn = none ∨ self.expiresIn = some 0 →
        objGet (self.finalPayload now P) expKey = objGet P expKey)
    ∧ (∀ s : JsStr, self.issuer = some s → s ≠ [] →
        objGet (self.finalPayload now P) issKey = some (Json.str s))
    ∧ (self.issuer = none ∨ self.issuer = some [] →
        objGet (self.finalPayload now P) issKey = objGet P issKey)
    ∧ (∀ s : JsStr, self.audience = some s → s ≠ [] →
        objGet (self.finalPayload now P) audKey = some (Json.str s))
    ∧ (self.audience = none ∨ self.audience = some [] →
        objGet (self.finalPayload now P) audKey = objGet P audKey)
    ∧ (∀ k : JsStr, k ≠ iatKey → k ≠ expKey → k ≠ issKey → k ≠ audKey →
        objGet (self.finalPayload now P) k = objGet P k) :=
  finalPayload_props self now P

/-- Witness for C4: a codec with expiresIn 60 and issuer "my" at now 7,
applied to a caller payload carrying exp and a stray claim "u". -/
theorem jwt_finalPayload_characterization_witness :
    objGet
      (JWT.finalPayload
        { key := List.replicate 32 97, header := defaultHeader,
          expiresIn := some 60, issuer := some [109, 121], audience := none }
        7 [(expKey, Json.num 5), ([117], Json.num 3)])
      iatKey = some (Json.num 7)
    ∧ objGet
      (JWT.finalPayload
        { key := List.replicate 32 97, header := defaultHeader,
          expiresIn := some 60, issuer := some [109, 121], audience := none }
        7 [(expKey, Json.num 5), ([117], Json.num 3)])
      expKey = some (Json.num 67)
    ∧ objGet
      (JWT.finalPayload
        { key := List.replicate 32 97, header := defaultHeader,
          expiresIn := some 60, issuer := some [109, 121], audience := none }
        7 [(expKey, Json.num 5), ([117], Json.num 3)])
      issKey = some (Json.str [109, 121])
    ∧ objGet
      (JWT.finalPayload
        { key := List.replicate 32 97, header := defaultHeader,
          expiresIn := some 60, issuer := some [109, 121], audience := none }
        7 [(expKey, Json.num 5), ([117], Json.num 3)])
      [117] = some (Json.num 3) := by
  obtain ⟨h1, h2, h3, h4, h5, h6, h7, h8⟩ :=
    jwt_finalPayload_characterization
      { key := List.replicate 32 97, header := defaultHeader,
        expiresIn := some 60, issuer := some [109, 121], audience := none }
      7 [(expKey, Json.num 5), ([117], Json.num 3)]
  refine ⟨h1, ?_, ?_, ?_⟩
  · have := h2 60 rfl (by decide)
    rw [this]
    rfl
  · exact h4 [109, 121] rfl (by decide)
  · rw [h8 [117] (by decide) (by decide) (by decide) (by decide)]
    rfl

/-! ## The success path of verify -/

/-- On a genuinely signed token (any dot-free header segment, a payload
segment encoding real bytes, the signature recomputed exactly as generate
does) verify reduces to the three payload checks. -/
theorem verify_genuine (jd : List Nat → Option Json) (hm : JsStr → JsStr → List Nat)
    (self : JWT) (nowMs : Nat) (pl : Json) (hseg : JsStr) (pbytes : List Nat)
    (hh : dotC ∉ hseg) (hpb : ∀ b ∈ pbytes, b < 256) (hjd : jd pbytes = some pl) :
    JWT.verify jd hm self nowMs
      (hseg ++ dotC :: (b64urlEncode pbytes ++ dotC ::
        self.getSignature hm (hseg ++ dotC :: b64urlEncode pbytes))) =
      (if expiredCheck nowMs pl then none
       else if issuerCheck self pl then none
       else if audienceCheck self pl then none
       else some pl) := by
  have hp : dotC ∉ b64urlEncode pbytes := dot_not_mem_b64urlEncode _
  have hs : dotC ∉ self.getSignature hm (hseg ++ dotC :: b64urlEncode pbytes) := by
    rw [JWT.getSignature]
    exact dot_not_mem_b64urlEncode _
  simp only [JWT.verify]
  rw [jsSplit_three hh hp hs]
  simp only [sigAccept_self, if_true]
  rw [b64urlDecode_b64urlEncode hpb, hjd]

/-! ## Claim C1: verify after generate -/

/-- C1 as amended: for every payload P and key of length at least 32,
verifying immediately after generating returns the built payload — P with
iat set to the generation time plus exp/iss/aud exactly when the
corresponding option is configured with a truthy value — provided a
configured expiresIn is positive and, when expiresIn is absent or zero,
the caller payload carries no exp claim of its own.  The JSON collaborator
is any encoder/decoder pair that round-trips the built payload (as
JSON.stringify/JSON.parse do). -/
theorem jwt_verify_generate_roundtrip
    (je : Json → List Nat) (jd : List Nat → Option Json) (hm : JsStr → JsStr → List Nat)
    (self : JWT) (nowMs : Nat) (P : JsObj)
    (_hkey : 32 ≤ self.key.length)
    (hjb : ∀ b ∈ je (Json.obj (self.finalPayload (nowMs / 1000) P)), b < 256)
    (hjd : jd (je (Json.obj (self.finalPayload (nowMs / 1000) P))) =
      some (Json.obj (self.finalPayload (nowMs / 1000) P)))
    (hpos : ∀ e : Int, self.expiresIn = some e → e ≠ 0 → 0 < e)
    (hnoexp : self.expiresIn = none ∨ self.expiresIn = some 0 → objGet P expKey = none) :
    JWT.verify jd hm self nowMs (JWT.generate je hm self nowMs P) =
      some (Json.obj (self.finalPayload (nowMs / 1000) P)) := by
  have hgen : JWT.generate je hm self nowMs P =
      self.headerSeg je ++ dotC ::
        (b64urlEncode (je (Json.obj (self.finalPayload (nowMs / 1000) P))) ++ dotC ::
          self.getSignature hm (self.headerSeg je ++ dotC ::
            b64urlEncode (je (Json.obj (self.finalPayload (nowMs / 1000) P))))) := by
    simp only [JWT.generate, JWT.payloadSeg, List.append_assoc, List.cons_append]
  have hh : dotC ∉ self.headerSeg je := dot_not_mem_b64urlEncode _
  rw [hgen, verify_genuine jd hm self nowMs _ _ _ hh hjb hjd]
  obtain ⟨hiat, hexp1, hexp2, hiss1, hiss2, haud1, haud2, hframe⟩ :=
    finalPayload_props self (nowMs / 1000) P
  have hec : expiredCheck nowMs (Json.obj (self.finalPayload (nowMs / 1000) P)) = false := by
    simp only [expiredCheck, getKey]
    rcases hx : self.expiresIn with _ | e
    · rw [hexp2 (Or.inl hx), hnoexp (Or.inl hx)]
    · by_cases he : e = 0
      · subst he
        rw [hexp2 (Or.inr hx), hnoexp (Or.inr hx)]
      · rw [hexp1 e hx he]
        have h0 : 0 < e := hpos e hx he
        simp only [jsTruthy, jsToNumber, Bool.and_eq_false_iff]
        right
        simp only [decide_eq_false_iff_not]
        omega
  have hic : issuerCheck self (Json.obj (self.finalPayload (nowMs / 1000) P)) = false := by
    rcases hx : self.issuer with _ | si
    · simp [issuerCheck, hx]
    · by_cases hsi : si = []
      · simp [issuerCheck, hx, hsi]
      · have h1 := hiss1 si hx hsi
        simp only [issuerCheck, hx, getKey, h1]
        simp
  have hac : audienceCheck self (Json.obj (self.finalPayload (nowMs / 1000) P)) = false := by
    rcases hx : self.audience with _ | sa
    · simp [audienceCheck, hx]
    · by_cases hsa : sa = []
      · simp [audienceCheck, hx, hsa]
      · have h1 := haud1 sa hx hsa
        simp only [audienceCheck, hx, getKey, h1]
        simp
  rw [hec, hic, hac]
  simp

/-- A convenient key of 32 "a" characters. -/
def key32 : JsStr := List.replicate 32 97

/-- A fully configured codec instance: 32-character key, expiresIn 60,
issuer "m", audience "u". -/
def jwtFull : JWT :=
  { key := key32, header := defaultHeader, expiresIn := some 60,
    issuer := some [109], audience := some [117] }

/-- A plain codec instance: 32-character key, nothing else configured. -/
def jwtPlain : JWT :=
  { key := key32, header := defaultHeader, expiresIn := none,
    issuer := none, audience := none }

/-- A toy HMAC collaborator: a constant 32-byte digest (digest length and
byte range as HMAC-SHA256; no claim below relies on any other property of
the digest function). -/
def hm0 : JsStr → JsStr → List Nat := fun _ _ => List.replicate 32 0

/-- A toy JSON encoder for the C1 witness: a constant byte string. -/
def jeC1 : Json → List Nat := fun _ => [0]

/-- The matching toy JSON decoder for the C1 witness, behaving as
JSON.parse does on the one encoding the scenario produces. -/
def jdC1 : List Nat → Option Json :=
  fun _ => some (Json.obj (JWT.finalPayload jwtFull 1 []))

/-- Witness for C1: the fully configured codec at clock 1000 ms on the
empty payload round-trips to the payload with iat 1, exp 61, iss "m",
aud "u". -/
theorem jwt_verify_generate_roundtrip_witness :
    JWT.verify jdC1 hm0 jwtFull 1000 (JWT.generate jeC1 hm0 jwtFull 1000 []) =
      some (Json.obj (JWT.finalPayload jwtFull 1 [])) :=
  jwt_verify_generate_roundtrip jeC1 jdC1 hm0 jwtFull 1000 []
    (by decide)
    (by intro b hb; simp [jeC1] at hb; omega)
    rfl
    (by intro e he hne; simp only [jwtFull] at he; injection he with h; omega)
    (by rintro (h | h) <;> simp [jwtFull] at h)

/-- A toy JSON encoder for the C1 counterexample. -/
def jeCx1 : Json → List Nat := fun _ => [0]

/-- The matching toy JSON decoder for the C1 counterexample: it decodes
the one encoding the scenario produces back to the built payload, exactly
as JSON.parse would. -/
def jdCx1 : List Nat → Option Json :=
  fun _ => some (Json.obj [(expKey, Json.num 1), (iatKey, Json.num 2)])

/-- Counterexample to C1 as stated: with nothing configured, the caller
payload carrying exp 1 (a past instant) and the clock at 2000 ms, verify
of the fresh token returns none rather than the payload extended with iat
— generate leaves the caller's exp claim in place, and verify's expiry
check then rejects the token it just produced. -/
theorem jwt_verify_generate_roundtrip_cx :
    JWT.verify jdCx1 hm0 jwtPlain 2000
      (JWT.generate jeCx1 hm0 jwtPlain 2000 [(expKey, Json.num 1)]) = none := by
  rfl

/-! ## Claim C3: the expiry boundary -/

/-- C3 as amended: for every correctly signed token whose decoded payload
carries an exp claim with a nonzero integer value t, against a codec with
no issuer or audience configured, verify succeeds exactly when the current
time is strictly before t seconds: it returns the payload when nowMs is
below t*1000 and none when nowMs is at or past t*1000.  (The nonzero
restriction is forced by the source's truthiness guard on payload.exp.) -/
theorem jwt_verify_exp_boundary
    (je : Json → List Nat) (jd : List Nat → Option Json) (hm : JsStr → JsStr → List Nat)
    (self : JWT) (nowMs : Nat) (payload : Json) (t : Int)
    (hiss : self.issuer = none) (haud : self.audience = none)
    (hpb : ∀ b ∈ je payload, b < 256)
    (hjd : jd (je payload) = some payload)
    (hexp : getKey payload expKey = some (Json.num t)) (ht : t ≠ 0) :
    JWT.verify jd hm self nowMs (mkSignedToken je hm self payload) =
      (if (nowMs : Int) < t * 1000 then some payload else none) := by
  have htok : mkSignedToken je hm self payload =
      self.headerSeg je ++ dotC :: (b64urlEncode (je payload) ++ dotC ::
        self.getSignature hm (self.headerSeg je ++ dotC :: b64urlEncode (je payload))) := by
    simp only [mkSignedToken, List.append_assoc, List.cons_append]
  have hh : dotC ∉ self.headerSeg je := dot_not_mem_b64urlEncode _
  rw [htok, verify_genuine jd hm self nowMs payload _ _ hh hpb hjd]
  by_cases hlt : (nowMs : Int) < t * 1000
  · have hnge : ¬ ((nowMs : Int) ≥ t * 1000) := by omega
    simp [expiredCheck, hexp, jsTruthy, jsToNumber, ht, hnge, issuerCheck,
      audienceCheck, hiss, haud, hlt]
  · have hge : (nowMs : Int) ≥ t * 1000 := by omega
    simp [expiredCheck, hexp, jsTruthy, jsToNumber, ht, hge, hlt]

/-- A toy JSON encoder for the C3 scenarios. -/
def jeC3 : Json → List Nat := fun _ => [0]

/-- The matching toy JSON decoder for the C3 witness: the one encoding the
scenario produces decodes back to the payload with exp 2. -/
def jdC3 : List Nat → Option Json := fun _ => some (Json.obj [(expKey, Json.num 2)])

/-- Witness for C3: a signed token with exp 2 verifies at 1000 ms (time 1,
strictly before 2) to its payload. -/
theorem jwt_verify_exp_boundary_witness :
    JWT.verify jdC3 hm0 jwtPlain 1000
      (mkSignedToken jeC3 hm0 jwtPlain (Json.obj [(expKey, Json.num 2)])) =
      some (Json.obj [(expKey, Json.num 2)]) := by
  have h := jwt_verify_exp_boundary jeC3 jdC3 hm0 jwtPlain 1000
    (Json.obj [(expKey, Json.num 2)]) 2 rfl rfl
    (by intro b hb; simp [jeC3] at hb; omega) rfl (by rfl) (by decide)
  simpa using h

/-- The toy JSON decoder for the C3 counterexample: the one encoding the
scenario produces decodes back to the payload with exp 0. -/
def jdC3z : List Nat → Option Json := fun _ => some (Json.obj [(expKey, Json.num 0)])

/-- Counterexample to C3 as stated: a correctly signed token whose payload
carries the integer exp claim 0 verifies successfully at 5000 ms — time
well past the expiry instant 0 — because the source's truthiness guard
skips the expiry comparison when payload.exp is 0.  The claim requires
none here. -/
theorem jwt_verify_exp_zero_accepted :
    JWT.verify jdC3z hm0 jwtPlain 5000
      (mkSignedToken jeC3 hm0 jwtPlain (Json.obj [(expKey, Json.num 0)])) =
      some (Json.obj [(expKey, Json.num 0)]) := by
  rfl

/-! ## Tampering with the signature segment (claim C2) -/

/-- Length of encoder output. -/
theorem b64urlEncode_length (l : List Nat) :
    (b64urlEncode l).length =
      4 * (l.length / 3) + (if l.length % 3 = 0 then 0 else l.length % 3 + 1) := by
  induction l using b64urlEncode.induct with
  | case1 b0 b1 b2 rest ih =>
    simp only [b64urlEncode, List.length_cons, ih]
    have h3 : (rest.length + 1 + 1 + 1) / 3 = rest.length / 3 + 1 := by omega
    have h4 : (rest.length + 1 + 1 + 1) % 3 = rest.length % 3 := by omega
    rw [h3, h4]
    omega
  | case2 b0 b1 => simp [b64urlEncode]
  | case3 b0 => simp [b64urlEncode]
  | case4 => rfl

/-- Length of byte reassembly: it depends only on the sextet count. -/
theorem decodeSex_length (l : List Nat) :
    (decodeSex l).length =
      3 * (l.length / 4) + (if l.length % 4 ≤ 1 then 0 else l.length % 4 - 1) := by
  induction l using decodeSex.induct with
  | case1 s0 s1 s2 s3 rest ih =>
    simp only [decodeSex, List.length_cons, ih]
    have h3 : (rest.length + 1 + 1 + 1 + 1) / 4 = rest.length / 4 + 1 := by omega
    have h4 : (rest.length + 1 + 1 + 1 + 1) % 4 = rest.length % 4 := by omega
    rw [h3, h4]
    omega
  | case2 s0 s1 s2 => simp [decodeSex]
  | case3 s0 s1 => simp [decodeSex]
  | case4 s0 => simp [decodeSex]
  | case5 => rfl

/-- Replacing one sextet of a sequence of length 3 modulo 4 changes the
reassembled bytes, except a change confined to the two discarded trailing
bits of the final sextet.  The condition demands either a non-final
position or a difference that survives the two-bit truncation. -/
theorem decodeSex_set_ne (xs : List Nat) :
    ∀ i v : Nat, (∀ x ∈ xs, x < 64) → v < 64 → i < xs.length → v ≠ xs.getD i 0 →
      xs.length % 4 = 3 → (i + 1 < xs.length ∨ v / 4 ≠ xs.getD i 0 / 4) →
      decodeSex (xs.set i v) ≠ decodeSex xs := by
  induction xs using decodeSex.induct with
  | case1 s0 s1 s2 s3 rest ih =>
    intro i v hall hv hi hne hmod hcond
    have h0 : s0 < 64 := hall _ (by simp)
    have h1 : s1 < 64 := hall _ (by simp)
    have h2 : s2 < 64 := hall _ (by simp)
    have h3 : s3 < 64 := hall _ (by simp)
    have hrest : ∀ x ∈ rest, x < 64 := fun x hx => hall x (by simp [hx])
    match i with
    | 0 =>
      simp only [List.getD_cons_zero] at hne
      simp only [List.set_cons_zero, decodeSex]
      intro heq
      simp only [List.cons.injEq] at heq
      omega
    | 1 =>
      simp only [List.getD_cons_succ, List.getD_cons_zero] at hne
      simp only [List.set_cons_succ, List.set_cons_zero, decodeSex]
      intro heq
      simp only [List.cons.injEq] at heq
      omega
    | 2 =>
      simp only [List.getD_cons_succ, List.getD_cons_zero] at hne
      simp only [List.set_cons_succ, List.set_cons_zero, decodeSex]
      intro heq
      simp only [List.cons.injEq] at heq
      omega
    | 3 =>
      simp only [List.getD_cons_succ, List.getD_cons_zero] at hne
      simp only [List.set_cons_succ, List.set_cons_zero, decodeSex]
      intro heq
      simp only [List.cons.injEq] at heq
      omega
    | (j + 4) =>
      simp only [List.getD_cons_succ] at hne hcond
      simp only [List.set_cons_succ, decodeSex]
      have hj : j < rest.length := by
        simp only [List.length_cons] at hi
        omega
      have hmod' : rest.length % 4 = 3 := by
        simp only [List.length_cons] at hmod
        omega
      have hcond' : j + 1 < rest.length ∨ v / 4 ≠ rest.getD j 0 / 4 := by
        rcases hcond with h | h
        · left
          simp only [List.length_cons] at h
          omega
        · right; exact h
      have htail := ih j v hrest hv hj hne hmod' hcond'
      intro heq
      simp only [List.cons.injEq] at heq
      exact htail heq.2.2.2
  | case2 s0 s1 s2 =>
    intro i v hall hv hi hne hmod hcond
    have h0 : s0 < 64 := hall _ (by simp)
    have h1 : s1 < 64 := hall _ (by simp)
    have h2 : s2 < 64 := hall _ (by simp)
    match i with
    | 0 =>
      simp only [List.getD_cons_zero] at hne
      simp only [List.set_cons_zero, decodeSex]
      intro heq
      simp only [List.cons.injEq] at heq
      omega
    | 1 =>
      simp only [List.getD_cons_succ, List.getD_cons_zero] at hne
      simp only [List.set_cons_succ, List.set_cons_zero, decodeSex]
      intro heq
      simp only [List.cons.injEq] at heq
      omega
    | 2 =>
      simp only [List.getD_cons_succ, List.getD_cons_zero] at hne hcond
      rcases hcond with h | h
      · simp only [List.length_cons, List.length_nil] at h
        omega
      · simp only [List.set_cons_succ, List.set_cons_zero, decodeSex]
        intro heq
        simp only [List.cons.injEq] at heq
        omega
    | (j + 3) =>
      simp only [List.length_cons, List.length_nil] at hi
      omega
  | case3 s0 s1 =>
    intro i v _ _ _ _ hmod _
    simp only [List.length_cons, List.length_nil] at hmod
    omega
  | case4 s0 =>
    intro i v _ _ _ _ hmod _
    simp only [List.length_cons, List.length_nil] at hmod
    omega
  | case5 =>
    intro i v _ _ _ _ hmod _
    simp only [List.length_nil] at hmod
    omega

/-- The signature segment of the token generate produces. -/
def sigSegOf (je : Json → List Nat) (hm : JsStr → JsStr → List Nat)
    (self : JWT) (nowMs : Nat) (P : JsObj) : JsStr :=
  self.getSignature hm
    (self.headerSeg je ++ dotC :: self.payloadSeg je (nowMs / 1000) P)

/-- generate, decomposed into its three segments. -/
theorem generate_eq_segments (je : Json → List Nat) (hm : JsStr → JsStr → List Nat)
    (self : JWT) (nowMs : Nat) (P : JsObj) :
    JWT.generate je hm self nowMs P =
      self.headerSeg je ++ dotC :: (self.payloadSeg je (nowMs / 1000) P ++ dotC ::
        sigSegOf je hm self nowMs P) := by
  simp only [JWT.generate, sigSegOf, List.append_assoc, List.cons_append]

/-- An element read with getD at a valid position is a member. -/
theorem getD_mem_of_lt {l : List Nat} {i : Nat} (h : i < l.length) :
    l.getD i 0 ∈ l := by
  rw [List.getD_eq_getElem l 0 h]
  exact List.getElem_mem h

/-- C2 as amended: replacing any single character of the signature segment
of a generated token by a different base64url character makes verify
return none, unless the replacement hits the final (43rd) character and
agrees with it on the 4 high bits of its sextet — the 2 low bits are
discarded by base64url decoding of a 32-byte digest, so such a change
leaves the decoded signature bytes intact.  The digest function is any
collaborator producing 32 bytes, as HMAC-SHA256 does. -/
theorem jwt_verify_sig_tamper
    (je : Json → List Nat) (jd : List Nat → Option Json) (hm : JsStr → JsStr → List Nat)
    (self : JWT) (nowMs : Nat) (P : JsObj) (i c : Nat)
    (hhmlen : ∀ k m : JsStr, (hm k m).length = 32)
    (hhmb : ∀ k m : JsStr, ∀ b ∈ hm k m, b < 256)
    (hi : i < (sigSegOf je hm self nowMs P).length)
    (hc : isB64Code c = true)
    (hne : c ≠ (sigSegOf je hm self nowMs P).getD i 0)
    (hcond : i + 1 < (sigSegOf je hm self nowMs P).length ∨
      codeToSext c / 4 ≠ codeToSext ((sigSegOf je hm self nowMs P).getD i 0) / 4) :
    JWT.verify jd hm self nowMs
      (self.headerSeg je ++ dotC :: (self.payloadSeg je (nowMs / 1000) P ++ dotC ::
        (sigSegOf je hm self nowMs P).set i c)) = none := by
  obtain ⟨digest, hdig⟩ : ∃ d,
      hm self.key (self.headerSeg je ++ dotC :: self.payloadSeg je (nowMs / 1000) P) = d :=
    ⟨_, rfl⟩
  have hd32 : digest.length = 32 := by rw [← hdig]; exact hhmlen _ _
  have hdb : ∀ b ∈ digest, b < 256 := by rw [← hdig]; exact hhmb _ _
  have hseg : sigSegOf je hm self nowMs P = b64urlEncode digest := by
    rw [sigSegOf, JWT.getSignature, hdig]
  rw [hseg] at hi hne hcond ⊢
  have hlen43 : (b64urlEncode digest).length = 43 := by
    rw [b64urlEncode_length, hd32]
    rfl
  -- the committed sextet sequence
  have hmap : List.map codeToSext (b64urlEncode digest) = bytesToSexts digest := by
    have h1 := sextetsOf_b64urlEncode hdb
    rw [sextetsOf, List.filter_eq_self.mpr (b64urlEncode_all_b64 _)] at h1
    exact h1
  have hSlen : (bytesToSexts digest).length = 43 := by
    rw [← hmap, List.length_map, hlen43]
  have hSall : ∀ x ∈ bytesToSexts digest, x < 64 := by
    rw [← hmap]
    intro x hx
    rcases List.mem_map.mp hx with ⟨a, -, rfl⟩
    exact codeToSext_lt a
  have hgd : (bytesToSexts digest).getD i 0 =
      codeToSext ((b64urlEncode digest).getD i 0) := by
    rw [← hmap, show (0 : Nat) = codeToSext 0 from rfl, List.getD_map]
    rfl
  have horig_mem : (b64urlEncode digest).getD i 0 ∈ b64urlEncode digest :=
    getD_mem_of_lt hi
  have horig_b64 : isB64Code ((b64urlEncode digest).getD i 0) = true :=
    b64urlEncode_all_b64 _ _ horig_mem
  have hvne : codeToSext c ≠ (bytesToSexts digest).getD i 0 := by
    rw [hgd]
    intro he
    exact hne (codeToSext_inj hc horig_b64 he)
  have hcond' : i + 1 < (bytesToSexts digest).length ∨
      codeToSext c / 4 ≠ (bytesToSexts digest).getD i 0 / 4 := by
    rcases hcond with h | h
    · left; rw [hSlen]; rw [hlen43] at h; exact h
    · right; rw [hgd]; exact h
  have hSne := decodeSex_set_ne (bytesToSexts digest) i (codeToSext c) hSall
    (codeToSext_lt c) (by rw [hSlen]; rw [hlen43] at hi; exact hi) hvne
    (by rw [hSlen]) hcond'
  -- decoded bytes of the tampered segment
  have hs'b64 : ∀ ch ∈ (b64urlEncode digest).set i c, isB64Code ch = true := by
    intro ch hch
    rcases List.mem_or_eq_of_mem_set hch with h | h
    · exact b64urlEncode_all_b64 _ _ h
    · rw [h]; exact hc
  have hs'dot : dotC ∉ (b64urlEncode digest).set i c := by
    intro hmem
    have h1 := hs'b64 _ hmem
    exact absurd h1 (by decide)
  have hrecv : b64urlDecode ((b64urlEncode digest).set i c) =
      decodeSex ((bytesToSexts digest).set i (codeToSext c)) := by
    rw [b64urlDecode, sextetsOf, List.filter_eq_self.mpr hs'b64, List.map_set, hmap]
  -- verify rejects
  have hh : dotC ∉ self.headerSeg je := dot_not_mem_b64urlEncode _
  have hp : dotC ∉ self.payloadSeg je (nowMs / 1000) P := dot_not_mem_b64urlEncode _
  have hsig_eq : self.getSignature hm
      (self.headerSeg je ++ dotC :: self.payloadSeg je (nowMs / 1000) P) =
      b64urlEncode digest := by
    rw [JWT.getSignature, hdig]
  have hacc : sigAccept (b64urlDecode ((b64urlEncode digest).set i c))
      (b64urlDecode (b64urlEncode digest)) = false := by
    rw [hrecv, b64urlDecode_b64urlEncode hdb]
    apply sigAccept_ne
    · rw [decodeSex_length, List.length_set, hSlen, ← decodeSex_bytesToSexts hdb,
        decodeSex_length, hSlen]
    · intro h
      apply hSne
      rw [h]
      exact (decodeSex_bytesToSexts hdb).symm
  simp only [JWT.verify]
  rw [jsSplit_three hh hp hs'dot]
  simp only [hsig_eq, hacc]
  simp

/-- Witness for C2: tampering with the first signature character of a
concrete token makes verify return none. -/
theorem jwt_verify_sig_tamper_witness :
    JWT.verify jdC1 hm0 jwtPlain 0
      (JWT.headerSeg jeC1 jwtPlain ++ dotC :: (JWT.payloadSeg jeC1 jwtPlain 0 [] ++ dotC ::
        (sigSegOf jeC1 hm0 jwtPlain 0 []).set 0 66)) = none :=
  jwt_verify_sig_tamper jeC1 jdC1 hm0 jwtPlain 0 [] 0 66
    (by intro k m; simp [hm0])
    (by intro k m b hb; simp [hm0] at hb; omega)
    (by decide)
    (by decide)
    (by decide)
    (Or.inl (by decide))

/-- The toy JSON decoder for the C2 counterexample: the payload segment of
the scenario decodes to the built payload, as JSON.parse would. -/
def jdCx2 : List Nat → Option Json := fun _ => some (Json.obj [(iatKey, Json.num 0)])

/-- Counterexample to C2 as stated: replacing the final (43rd) character
of the signature segment of a valid token — here an "A" — by the distinct
base64url character "B" leaves verify successful, because the two
characters differ only in the 2 low sextet bits that base64url decoding of
a 32-byte digest discards; the claim demands none for every single-character
replacement. -/
theorem jwt_verify_sig_tamper_cx :
    JWT.verify jdCx2 hm0 jwtPlain 0
      (JWT.headerSeg jeC1 jwtPlain ++ dotC :: (JWT.payloadSeg jeC1 jwtPlain 0 [] ++ dotC ::
        (sigSegOf jeC1 hm0 jwtPlain 0 []).set 42 66)) =
      some (Json.obj [(iatKey, Json.num 0)]) := by
  rfl

/-! ## Lemmas about cookie parsing -/

/-- Trimming leaves a whitespace-free string unchanged. -/
theorem jsTrim_of_no_ws {l : List Nat} (h : ∀ c ∈ l, isWs c = false) :
    jsTrim l = l := by
  have hd : ∀ m : List Nat, (∀ c ∈ m, isWs c = false) → m.dropWhile isWs = m := by
    intro m hm
    cases m with
    | nil => rfl
    | cons c t => simp [List.dropWhile_cons, hm c (List.mem_cons_self c t)]
  rw [jsTrim, hd _ h, hd, List.reverse_reverse]
  intro c hc
  exact h c (List.mem_reverse.mp hc)

/-- Percent-decoding leaves a string without "%" unchanged. -/
theorem pctDecode_of_no_pct {l : List Nat} (h : pctC ∉ l) : pctDecode l = some l := by
  induction l with
  | nil => rfl
  | cons c rest ih =>
    have hrest : pctC ∉ rest := fun hm => h (List.mem_cons_of_mem _ hm)
    have hcne : ¬ c = 37 := by
      intro he
      exact h (by simp [pctC, he])
    unfold pctDecode
    rw [if_neg hcne, ih hrest]

/-- The single-entry cookie header "name=value" parses to one record, for
separator-free, escape-free, whitespace-free name and value. -/
theorem cookieParse_single_pair {n id : JsStr}
    (hn : ∀ c ∈ n, c ≠ semiC ∧ c ≠ eqC ∧ c ≠ pctC ∧ isWs c = false)
    (hnne : n ≠ [])
    (hid : ∀ c ∈ id, c ≠ semiC ∧ c ≠ eqC ∧ c ≠ pctC ∧ isWs c = false) :
    cookieParse (n ++ eqC :: id) = Except.ok [(n, { name := n, value := id })] := by
  have hne2 : n ++ eqC :: id ≠ [] := by simp
  have hsemi : semiC ∉ n ++ eqC :: id := by
    intro hm
    rcases List.mem_append.mp hm with h | h
    · exact (hn _ h).1 rfl
    · rcases List.mem_cons.mp h with h | h
      · exact absurd h (by decide)
      · exact (hid _ h).1 rfl
  have heqn : eqC ∉ n := fun hm => (hn _ hm).2.1 rfl
  have heqid : eqC ∉ id := fun hm => (hid _ hm).2.1 rfl
  rw [cookieParse, if_neg hne2, jsSplit_of_not_mem hsemi]
  have hstep : cookieEntryStep [] (n ++ eqC :: id) =
      Except.ok [(n, { name := n, value := id })] := by
    rw [cookieEntryStep, jsSplit_append_sep heqn, jsSplit_of_not_mem heqid]
    have htn : jsTrim n = n := jsTrim_of_no_ws (fun c hc => (hn c hc).2.2.2)
    have htid : jsTrim id = id := jsTrim_of_no_ws (fun c hc => (hid c hc).2.2.2)
    have hpd : pctDecode id = some id :=
      pctDecode_of_no_pct (fun hm => (hid _ hm).2.2.1 rfl)
    simp [htn, htid, hpd, hnne, jsJoin, cookieEntryStep.setAssoc]
  simp [List.foldlM, hstep]

/-! ## Claim C7: the cookie parser -/

/-- Counterexample to C7 as stated: on the empty header value, the source
returns the empty record without splitting, while the claim's algorithm —
split on ";" and fail on an empty trimmed key — raises CookieError
(EmptyKey) on the single empty entry the split yields. -/
theorem cookieParse_empty_header_diverges :
    cookieParse [] = Except.ok [] ∧ cookieParseClaim [] = Except.error CookieErr.emptyKey := by
  constructor <;> rfl

/-- C7 as amended: cookie parsing behaves as the claim describes — split
on ";", split each entry on the first "=", trim the key, raise
CookieError(EmptyKey) on an empty trimmed key, URL-decode the value, use
the key itself as the value of a "="-free entry, later duplicate names
overwriting earlier ones — with two source details added: the empty header
yields the empty record without being split, and the value is trimmed
before URL-decoding.  In particular "a=1; b=2" parses to the records a=1
and b=2. -/
theorem cookie_parse_spec :
    (∀ str : JsStr, cookieParse str = cookieParseAmended str)
    ∧ cookieParse [97, 61, 49, 59, 32, 98, 61, 50] =
        Except.ok [([97], { name := [97], value := [49] }),
                   ([98], { name := [98], value := [50] })] := by
  constructor
  · intro str
    rfl
  · rfl

/-! ## Lemmas about the in-memory store -/

/-- init on a stored id returns the stored session and leaves the store
unchanged. -/
theorem machineInit_of_read {m : Machine} {id : JsStr} {s : Session}
    (h : machineRead m id = some s) : machineInit m id = (s, m) := by
  rw [machineInit, h]

/-- Reading a freshly appended session. -/
theorem machineRead_append_self {m : Machine} {id : JsStr} (s : Session)
    (h : machineRead m id = none) : machineRead (m ++ [(id, s)]) id = some s := by
  induction m with
  | nil => simp [machineRead]
  | cons kv rest ih =>
    obtain ⟨k, v⟩ := kv
    by_cases hk : k = id
    · rw [machineRead, if_pos hk] at h
      cases h
    · rw [machineRead, if_neg hk] at h
      simp only [List.cons_append, machineRead, if_neg hk]
      exact ih h

/-! ## Claim C5: start on a malformed cookie header -/

/-- C5 names a real defect: the source's Manager.start parses the request
cookies through the CookieHandler constructor with no try/catch, so the
CookieError raised on the malformed header "=foo" (empty key after
trimming) propagates out of start instead of being treated as "no session".
The model evaluates start at that header: the call errors rather than
returning a fresh session. -/
theorem manager_start_malformed_cookie_throws :
    managerStart { cookieName := [115] } [] (fun _ => [97]) 1 [61, 102, 111, 111] =
      Except.error (StartErr.cookie CookieErr.emptyKey) := by
  rfl

/-! ## Claim C6: start is idempotent per session id -/

/-- C6: (i) init returns the already-stored session unchanged; (ii) when
the request presents a non-empty id under the configured cookie name,
start returns exactly store.init of that id and emits nothing; (iii) a
first start with no cookie header issues a Set-Cookie carrying a fresh id
drawn from the random source, and a second start whose cookie header feeds
that id back returns the identical session with the store unchanged and no
further Set-Cookie. -/
theorem manager_start_idempotent :
    (∀ (m : Machine) (id : JsStr) (s : Session),
      machineRead m id = some s → machineInit m id = (s, m))
    ∧ (∀ (cfg : ManagerCfg) (m : Machine) (gen : Nat → JsStr) (fuel : Nat)
        (header : JsStr) (cookies : List (JsStr × CookieVar)) (cv : CookieVar),
        cookieParse header = Except.ok cookies →
        managerStart.objGetCv cookies cfg.cookieName = some cv →
        cv.value ≠ [] →
        managerStart cfg m gen fuel header =
          Except.ok { session := (machineInit m cv.value).1,
                      machine := (machineInit m cv.value).2, emitted := [] })
    ∧ (∀ (cfg : ManagerCfg) (m : Machine) (gen : Nat → JsStr) (fuel : Nat),
        (∀ c ∈ cfg.cookieName, c ≠ semiC ∧ c ≠ eqC ∧ c ≠ pctC ∧ isWs c = false) →
        cfg.cookieName ≠ [] →
        (∀ c ∈ gen 0, c ≠ semiC ∧ c ≠ eqC ∧ c ≠ pctC ∧ isWs c = false) →
        gen 0 ≠ [] →
        machineRead m (gen 0) = none →
        managerStart cfg m gen (fuel + 1) [] =
          Except.ok { session := (machineInit m (gen 0)).1,
                      machine := (machineInit m (gen 0)).2,
                      emitted := [{ name := cfg.cookieName, value := gen 0,
                                    secure := cfg.optSecure.getD true,
                                    httpOnly := cfg.optHttpOnly.getD true,
                                    sameSite := some (cfg.optSameSite.getD SameSite.strict) }] }
        ∧ managerStart cfg (machineInit m (gen 0)).2 gen (fuel + 1)
            (cfg.cookieName ++ eqC :: gen 0) =
          Except.ok { session := (machineInit m (gen 0)).1,
                      machine := (machineInit m (gen 0)).2, emitted := [] }) := by
  refine ⟨?_, ?_, ?_⟩
  · intro m id s h
    exact machineInit_of_read h
  · intro cfg m gen fuel header cookies cv hparse hget hv
    rw [managerStart, hparse]
    simp [hget, hv]
  · intro cfg m gen fuel hn hnne hid hidne hfree
    have hloop : freshIdLoop m gen 0 (fuel + 1) = some (gen 0) := by
      rw [freshIdLoop, hfree]
    have hinit : machineInit m (gen 0) =
        ({ id := gen 0, data := [] }, m ++ [(gen 0, { id := gen 0, data := [] })]) := by
      rw [machineInit, hfree]
    constructor
    · simp [managerStart, cookieParse, managerStart.objGetCv, managerStart.startFresh,
        hloop, hinit]
    · have hparse := cookieParse_single_pair hn hnne hid
      have hread2 : machineRead (machineInit m (gen 0)).2 (gen 0) =
          some (machineInit m (gen 0)).1 := by
        rw [hinit]
        exact machineRead_append_self _ hfree
      rw [managerStart, hparse]
      simp [managerStart.objGetCv, hidne, machineInit_of_read hread2]

/-- Witness for C6: a concrete first start with no cookie header on the
empty store, whose emitted cookie value fed back into a second start
returns the identical session with the store unchanged. -/
theorem manager_start_idempotent_witness :
    managerStart { cookieName := [115] } [] (fun _ => [65]) 1 [] =
      Except.ok { session := { id := [65], data := [] },
                  machine := [([65], { id := [65], data := [] })],
                  emitted := [{ name := [115], value := [65], secure := true,
                                httpOnly := true, sameSite := some SameSite.strict }] }
    ∧ managerStart { cookieName := [115] } [([65], { id := [65], data := [] })]
        (fun _ => [65]) 1 ([115] ++ eqC :: [65]) =
      Except.ok { session := { id := [65], data := [] },
                  machine := [([65], { id := [65], data := [] })], emitted := [] } :=
  manager_start_idempotent.2.2 { cookieName := [115] } [] (fun _ => [65]) 0
    (by decide) (by decide) (by decide) (by decide) rfl

/-! ## Claim C10: getData and loadSession copy shallowly -/

/-- Reading the freshly consed object. -/
theorem hRead_mk_cons_self (n : Nat) (o : JsObj) (objs : List (Nat × JsObj)) (nx : Nat) :
    hRead ⟨(n, o) :: objs, nx⟩ n = o := by
  simp [hRead, objsRead]

/-- Reading past the freshly consed object. -/
theorem hRead_mk_cons_ne {b n : Nat} (o : JsObj) (objs : List (Nat × JsObj)) (nx nx' : Nat)
    (hne : b ≠ n) : hRead ⟨(n, o) :: objs, nx⟩ b = hRead ⟨objs, nx'⟩ b := by
  simp [hRead, objsRead, Ne.symm hne]

/-- Writing at one address leaves reads at any other address unchanged. -/
theorem hRead_hWrite_ne (h : Heap) (a b : Nat) (k : JsStr) (v : Json) (hne : b ≠ a) :
    hRead (hWrite h a k v) b = hRead h b := by
  obtain ⟨objs, nx⟩ := h
  simp only [hRead, hWrite]
  induction objs with
  | nil => rfl
  | cons kv rest ih =>
    obtain ⟨k1, o1⟩ := kv
    simp only [List.map_cons]
    by_cases h1 : k1 = a
    · subst h1
      have hbk : ¬ k1 = b := fun he => hne he.symm
      rw [if_pos rfl]
      simp [objsRead, hbk, ih]
    · rw [if_neg h1]
      by_cases h2 : k1 = b
      · subst h2
        simp [objsRead]
      · simp [objsRead, h2, ih]

/-- C10: getData hands the caller a fresh shallow copy of the session's
data object, and loadSession points the session at a fresh shallow copy of
the caller's object; therefore mutating the object returned by getData
never changes the session's stored data, and mutating the object
previously passed to loadSession never changes the session's stored data
(under the heap invariant that live addresses are below the allocation
frontier). -/
theorem session_shallow_copy_isolation :
    (∀ (h : Heap) (s : SessionRef) (k : JsStr) (v : Json), s.dataRef < h.next →
      hRead (sessionGetData h s).2 (sessionGetData h s).1 = hRead h s.dataRef
      ∧ hRead (hWrite (sessionGetData h s).2 (sessionGetData h s).1 k v) s.dataRef =
          hRead h s.dataRef)
    ∧ (∀ (h : Heap) (s : SessionRef) (a : Nat) (k : JsStr) (v : Json), a < h.next →
      hRead (sessionLoadSession h s a).2 (sessionLoadSession h s a).1.dataRef = hRead h a
      ∧ hRead (hWrite (sessionLoadSession h s a).2 a k v)
          (sessionLoadSession h s a).1.dataRef = hRead h a) := by
  constructor
  · intro h s k v hinv
    have hne : s.dataRef ≠ h.next := Nat.ne_of_lt hinv
    constructor
    · show hRead ⟨(h.next, hRead h s.dataRef) :: h.objs, h.next + 1⟩ h.next = hRead h s.dataRef
      exact hRead_mk_cons_self _ _ _ _
    · show hRead (hWrite ⟨(h.next, hRead h s.dataRef) :: h.objs, h.next + 1⟩ h.next k v)
          s.dataRef = hRead h s.dataRef
      rw [hRead_hWrite_ne _ _ _ _ _ hne]
      rw [hRead_mk_cons_ne _ _ _ h.next hne]
  · intro h s a k v hinv
    have hne : h.next ≠ a := Ne.symm (Nat.ne_of_lt hinv)
    constructor
    · show hRead ⟨(h.next, hRead h a) :: h.objs, h.next + 1⟩ h.next = hRead h a
      exact hRead_mk_cons_self _ _ _ _
    · show hRead (hWrite ⟨(h.next, hRead h a) :: h.objs, h.next + 1⟩ a k v) h.next = hRead h a
      rw [hRead_hWrite_ne _ _ _ _ _ hne]
      exact hRead_mk_cons_self _ _ _ _

/-- Witness for C10: a one-object heap whose session data holds d=1;
the copy getData returns reads back equal, and writing d=2 into the copy
leaves the stored object reading d=1; likewise for loadSession. -/
theorem session_shallow_copy_isolation_witness :
    (hRead (sessionGetData ⟨[(0, [([100], Json.num 1)])], 1⟩ ⟨[115], 0⟩).2
        (sessionGetData ⟨[(0, [([100], Json.num 1)])], 1⟩ ⟨[115], 0⟩).1 =
      hRead ⟨[(0, [([100], Json.num 1)])], 1⟩ 0
    ∧ hRead (hWrite (sessionGetData ⟨[(0, [([100], Json.num 1)])], 1⟩ ⟨[115], 0⟩).2
        (sessionGetData ⟨[(0, [([100], Json.num 1)])], 1⟩ ⟨[115], 0⟩).1 [100] (Json.num 2)) 0 =
      hRead ⟨[(0, [([100], Json.num 1)])], 1⟩ 0)
    ∧ (hRead (sessionLoadSession ⟨[(0, [([100], Json.num 1)])], 1⟩ ⟨[115], 0⟩ 0).2
        (sessionLoadSession ⟨[(0, [([100], Json.num 1)])], 1⟩ ⟨[115], 0⟩ 0).1.dataRef =
      hRead ⟨[(0, [([100], Json.num 1)])], 1⟩ 0
    ∧ hRead (hWrite (sessionLoadSession ⟨[(0, [([100], Json.num 1)])], 1⟩ ⟨[115], 0⟩ 0).2
          0 [100] (Json.num 2))
        (sessionLoadSession ⟨[(0, [([100], Json.num 1)])], 1⟩ ⟨[115], 0⟩ 0).1.dataRef =
      hRead ⟨[(0, [([100], Json.num 1)])], 1⟩ 0) :=
  ⟨session_shallow_copy_isolation.1 ⟨[(0, [([100], Json.num 1)])], 1⟩ ⟨[115], 0⟩
      [100] (Json.num 2) (by decide),
   session_shallow_copy_isolation.2 ⟨[(0, [([100], Json.num 1)])], 1⟩ ⟨[115], 0⟩ 0
      [100] (Json.num 2) (by decide)⟩

end Whendy
